import Mathlib

/-!
Verification development for the microps userspace TCP/IP stack core:
a shallow embedding of the ARP resolver (neighbor cache, request/reply
state machine), the protocol registry with its softirq drain, the flat
timer list, and the sleep/wake scheduler primitive, together with
theorems settling the specified properties against the embedded code.

Machine integers are modelled as `Nat`; `struct timeval` values are
modelled by the total instant they denote (normalized timevals compare
and subtract exactly as their totals do, so `timercmp`/`timersub`
become numeric comparison and subtraction).  Hardware (6-byte) and
IPv4 (4-byte) addresses are modelled as the `Nat` value of their
bytes; the code only copies, zeroes and compares them.
-/

namespace Microps

/-! ## Constants (arp.c, net.h, ether.h, ip.h) -/

def ARP_HRD_ETHER : Nat := 0x0001

def ETHER_TYPE_IP : Nat := 0x0800

def ETHER_TYPE_ARP : Nat := 0x0806

def ARP_PRO_IP : Nat := ETHER_TYPE_IP

def ARP_OP_REQUEST : Nat := 1

def ARP_OP_REPLY : Nat := 2

def ARP_CACHE_SIZE : Nat := 32

def ETHER_ADDR_LEN : Nat := 6

def IP_ADDR_LEN : Nat := 4

/-- Value of `NET_DEVICE_TYPE_ETHERNET` (header constant; only its
identity matters to the embedded code). -/
def NET_DEVICE_TYPE_ETHERNET : Nat := 0x0002

/-- Value of `NET_IFACE_FAMILY_IP` (header constant; only its identity
matters to the embedded code). -/
def NET_IFACE_FAMILY_IP : Nat := 1

/-- `sizeof(struct arp_ether_ip)`: 8-byte header plus sha(6), spa(4),
tha(6), tpa(4). -/
def ARP_ETHER_IP_SIZE : Nat := 28

/-- 16-bit byte swap, the effect of `hton16` on a 16-bit value. -/
def hton16 (x : Nat) : Nat := (x % 256) * 256 + (x / 256) % 256

/-- 16-bit byte swap, the effect of `ntoh16` on a 16-bit value. -/
def ntoh16 (x : Nat) : Nat := (x % 256) * 256 + (x / 256) % 256

/-! ## ARP data model (arp.c) -/

/-- The four neighbor-cache slot states (`ARP_CACHE_STATE_*`). -/
inductive ArpState
  | FREE
  | INCOMPLETE
  | RESOLVED
  | STATIC
deriving DecidableEq

/-- `struct arp_cache`: one slot of the neighbor cache. -/
structure ArpCache where
  state : ArpState
  pa : Nat
  ha : Nat
  timestamp : Nat
deriving DecidableEq

/-- A slot as left by `arp_cache_delete` (also the initial value of
every slot of the zero-initialized static array). -/
def arpFreeEntry : ArpCache := ⟨ArpState.FREE, 0, 0, 0⟩

/-- `struct arp_ether_ip`: an ARP-over-Ethernet-IPv4 message.  Header
fields hold the wire (network-order) value, as in the C struct. -/
structure ArpMsg where
  hrd : Nat
  pro : Nat
  hln : Nat
  pln : Nat
  op : Nat
  sha : Nat
  spa : Nat
  tha : Nat
  tpa : Nat
deriving DecidableEq

/-- `struct net_iface` together with the `struct ip_iface` unicast
field reached through the cast `((struct ip_iface *)iface)->unicast`. -/
structure NetIface where
  family : Nat
  unicast : Nat
deriving DecidableEq

/-- The fields of `struct net_device` that the embedded code reads.
`iface->dev` back-pointers are resolved by passing the device
alongside the interface. -/
structure NetDevice where
  type : Nat
  addr : Nat
  broadcast : Nat
  ifaces : List NetIface
deriving DecidableEq

/-- A frame handed to `net_device_output`: the EtherType, the ARP
message carried as payload, and the destination hardware address. -/
structure Frame where
  ethType : Nat
  msg : ArpMsg
  dst : Nat
deriving DecidableEq

/-- `net_device_get_iface`: first interface of the device with the
requested family. -/
def net_device_get_iface (dev : NetDevice) (family : Nat) : Option NetIface :=
  dev.ifaces.find? (fun e => e.family = family)

/-! ## ARP cache functions (arp.c) -/

/-- Index-returning form of `arp_cache_select`: first slot that is
non-FREE and holds protocol address `pa`. -/
def arp_cache_selectIdx (pa : Nat) : List ArpCache → Option Nat
  | [] => none
  | c :: rest =>
    if c.state ≠ ArpState.FREE ∧ c.pa = pa then some 0
    else (arp_cache_selectIdx pa rest).map (· + 1)

/-- Outcome of the slot-selection loop in `arp_cache_alloc`: an unused
slot found (returned as-is), a victim to evict (deleted before being
returned), or no slot at all (`oldest` still NULL, only possible for
an empty array). -/
inductive AllocChoice
  | freeSlot (i : Nat)
  | evict (i : Nat)
  | fail
deriving DecidableEq

/-- The loop of `arp_cache_alloc`: return the first FREE slot, while
tracking the oldest slot (index and timestamp) seen so far; the
`oldest` pointer is updated whenever it is NULL or strictly newer than
the current entry. -/
def arp_cache_allocLoop : List ArpCache → Nat → Option (Nat × Nat) → AllocChoice
  | [], _, none => AllocChoice.fail
  | [], _, some (oi, _) => AllocChoice.evict oi
  | c :: rest, i, oldest =>
    if c.state = ArpState.FREE then AllocChoice.freeSlot i
    else
      arp_cache_allocLoop rest (i + 1)
        (match oldest with
         | none => some (i, c.timestamp)
         | some (oi, ot) => if ot > c.timestamp then some (i, c.timestamp) else some (oi, ot))

/-- `arp_cache_alloc`: the chosen slot index and the cache array after
the call (the evicted slot has been `arp_cache_delete`d). -/
def arp_cache_alloc (caches : List ArpCache) : Option (Nat × List ArpCache) :=
  match arp_cache_allocLoop caches 0 none with
  | AllocChoice.freeSlot i => some (i, caches)
  | AllocChoice.evict i => some (i, caches.set i arpFreeEntry)
  | AllocChoice.fail => none

/-- `arp_cache_update`: if a non-FREE slot for `pa` exists, make it
RESOLVED with hardware address `ha` and timestamp `now`; otherwise
return NULL (`none`) and leave the cache unchanged. -/
def arp_cache_update (pa ha now : Nat) (caches : List ArpCache) : Option (List ArpCache) :=
  match arp_cache_selectIdx pa caches with
  | none => none
  | some i =>
    some (caches.set i
      { caches.getD i arpFreeEntry with
          state := ArpState.RESOLVED, ha := ha, timestamp := now })

/-- `arp_cache_insert`: allocate a slot and fill it with a RESOLVED
entry for (`pa`, `ha`) stamped `now`. -/
def arp_cache_insert (pa ha now : Nat) (caches : List ArpCache) : Option (List ArpCache) :=
  match arp_cache_alloc caches with
  | none => none
  | some (i, caches1) => some (caches1.set i ⟨ArpState.RESOLVED, pa, ha, now⟩)

/-- `arp_request`: the broadcast ARP request frame built for `tpa` on
the given device/interface. -/
def arp_request (dev : NetDevice) (unicast tpa : Nat) : Frame :=
  { ethType := ETHER_TYPE_ARP
    msg :=
      { hrd := hton16 ARP_HRD_ETHER, pro := hton16 ARP_PRO_IP
        hln := ETHER_ADDR_LEN, pln := IP_ADDR_LEN, op := hton16 ARP_OP_REQUEST
        sha := dev.addr, spa := unicast, tha := 0, tpa := tpa }
    dst := dev.broadcast }

/-- `arp_reply`: the ARP reply frame built with target (`tha`, `tpa`)
and Ethernet destination `dst`. -/
def arp_reply (dev : NetDevice) (unicast tha tpa dst : Nat) : Frame :=
  { ethType := ETHER_TYPE_ARP
    msg :=
      { hrd := hton16 ARP_HRD_ETHER, pro := hton16 ARP_PRO_IP
        hln := ETHER_ADDR_LEN, pln := IP_ADDR_LEN, op := hton16 ARP_OP_REPLY
        sha := dev.addr, spa := unicast, tha := tha, tpa := tpa }
    dst := dst }

/-- The state the ARP module acts on: the cache array plus the ordered
log of frames handed to `net_device_output`. -/
structure ArpWorld where
  caches : List ArpCache
  sent : List Frame
deriving DecidableEq

/-- `arp_input`: validate, update the sender's cache entry, and if the
target protocol address is our own, insert if not merged and reply to
requests.  `len` is the byte length of the received data; `msg` is the
message the data parses to; `now` is the current time. -/
def arp_input (len : Nat) (msg : ArpMsg) (dev : NetDevice) (now : Nat)
    (w : ArpWorld) : ArpWorld :=
  if len < ARP_ETHER_IP_SIZE then w
  else if ¬(ntoh16 msg.hrd = ARP_HRD_ETHER ∧ msg.hln = ETHER_ADDR_LEN) then w
  else if ¬(ntoh16 msg.pro = ARP_PRO_IP ∧ msg.pln = IP_ADDR_LEN) then w
  else
    let spa := msg.spa
    let tpa := msg.tpa
    let upd := arp_cache_update spa msg.sha now w.caches
    let marge := upd.isSome
    let caches1 := upd.getD w.caches
    match net_device_get_iface dev NET_IFACE_FAMILY_IP with
    | none => { w with caches := caches1 }
    | some iface =>
      if iface.unicast = tpa then
        let caches2 :=
          if ¬marge then (arp_cache_insert spa msg.sha now caches1).getD caches1
          else caches1
        if ntoh16 msg.op = ARP_OP_REQUEST then
          { caches := caches2
            sent := w.sent ++ [arp_reply dev iface.unicast msg.sha spa msg.sha] }
        else { w with caches := caches2 }
      else { w with caches := caches1 }

/-- Result codes of `arp_resolve` (`ARP_RESOLVE_*`). -/
inductive ArpResolveResult
  | ERROR
  | INCOMPLETE
  | FOUND
deriving DecidableEq

/-- What one `arp_resolve` call produces: the result code, the value
written through the `ha` out-pointer (if any), the cache array after
the call, and the frames it emitted. -/
structure ResolveOut where
  res : ArpResolveResult
  ha : Option Nat
  caches : List ArpCache
  sent : List Frame
deriving DecidableEq

/-- `arp_resolve`: reject non-Ethernet devices and non-IP interfaces;
on a cache miss create an INCOMPLETE entry and broadcast a request; on
an INCOMPLETE hit re-broadcast; otherwise hand back the cached
hardware address. -/
def arp_resolve (dev : NetDevice) (iface : NetIface) (pa now : Nat)
    (caches : List ArpCache) : ResolveOut :=
  if dev.type ≠ NET_DEVICE_TYPE_ETHERNET then ⟨ArpResolveResult.ERROR, none, caches, []⟩
  else if iface.family ≠ NET_IFACE_FAMILY_IP then ⟨ArpResolveResult.ERROR, none, caches, []⟩
  else
    match arp_cache_selectIdx pa caches with
    | none =>
      match arp_cache_alloc caches with
      | none => ⟨ArpResolveResult.ERROR, none, caches, []⟩
      | some (i, caches1) =>
        let caches2 := caches1.set i
          { caches1.getD i arpFreeEntry with
              state := ArpState.INCOMPLETE, pa := pa, timestamp := now }
        ⟨ArpResolveResult.INCOMPLETE, none, caches2, [arp_request dev iface.unicast pa]⟩
    | some i =>
      let c := caches.getD i arpFreeEntry
      if c.state = ArpState.INCOMPLETE then
        ⟨ArpResolveResult.INCOMPLETE, none, caches, [arp_request dev iface.unicast pa]⟩
      else
        ⟨ArpResolveResult.FOUND, some c.ha, caches, []⟩

/-- One public ARP operation, for sequencing claims over traces. -/
inductive ArpOp
  | input (len : Nat) (msg : ArpMsg) (dev : NetDevice) (now : Nat)
  | resolve (dev : NetDevice) (iface : NetIface) (pa now : Nat)

/-- Apply one public ARP operation to the world. -/
def arpStep (w : ArpWorld) : ArpOp → ArpWorld
  | ArpOp.input len msg dev now => arp_input len msg dev now w
  | ArpOp.resolve dev iface pa now =>
    let r := arp_resolve dev iface pa now w.caches
    { caches := r.caches, sent := w.sent ++ r.sent }

/-- Run a sequence of public ARP operations. -/
def arpRun (w : ArpWorld) : List ArpOp → ArpWorld
  | [] => w
  | op :: ops => arpRun (arpStep w op) ops

/-- The initial ARP world: the zero-initialized 32-slot static array
and no emitted frames. -/
def arpInit : ArpWorld := ⟨List.replicate ARP_CACHE_SIZE arpFreeEntry, []⟩

/-! ## Protocol registry and ingress path (net.c) -/

/-- `struct net_protocol_queue_entry`. -/
structure NetQueueEntry where
  dev : Nat
  len : Nat
  data : List Nat
deriving DecidableEq

/-- `struct net_protocol`: the EtherType, the ingress FIFO (head =
front of the queue), and the handler, identified abstractly. -/
structure NetProtocol where
  type : Nat
  queue : List NetQueueEntry
  handler : Nat
deriving DecidableEq

/-- `net_protocol_register`: reject a duplicate type, otherwise
prepend a protocol with an empty queue to the list (`proto->next =
protocols; protocols = proto`). -/
def net_protocol_register (ty handler : Nat) (protocols : List NetProtocol) :
    Option (List NetProtocol) :=
  if protocols.any (fun p => p.type = ty) then none
  else some (⟨ty, [], handler⟩ :: protocols)

/-- Run a sequence of `net_protocol_register` calls, failing if any
registration fails. -/
def registerAll : List (Nat × Nat) → List NetProtocol → Option (List NetProtocol)
  | [], ps => some ps
  | r :: rest, ps =>
    match net_protocol_register r.1 r.2 ps with
    | none => none
    | some ps1 => registerAll rest ps1

/-- `net_input_handler`: find the protocol with the given type and
push a queue entry holding the payload at the tail of its FIFO
(unknown types are dropped; the softirq raise carries no data). -/
def net_input_handler (ty : Nat) (data : List Nat) (len : Nat) (dev : Nat) :
    List NetProtocol → List NetProtocol
  | [] => []
  | p :: rest =>
    if p.type = ty then { p with queue := p.queue ++ [⟨dev, len, data⟩] } :: rest
    else p :: net_input_handler ty data len dev rest

/-- The inner `while` of `net_softirq_handler`: pop the FIFO until
empty, invoking the protocol's handler on each entry in order.  The
result is the ordered log of handler invocations. -/
def drainLoop (handler : Nat) : List NetQueueEntry → List (Nat × NetQueueEntry)
  | [] => []
  | e :: rest => (handler, e) :: drainLoop handler rest

/-- `net_softirq_handler`: walk the protocol list from its head,
draining each FIFO completely before advancing; returns the protocol
list after the drain and the ordered invocation log. -/
def net_softirq_handler : List NetProtocol → List NetProtocol × List (Nat × NetQueueEntry)
  | [] => ([], [])
  | p :: rest =>
    let done := net_softirq_handler rest
    ({ p with queue := [] } :: done.1, drainLoop p.handler p.queue ++ done.2)

/-- The drain order the registry actually produces for a registration
sequence `rs` (first-registered first in `rs`) whose queues are given
by `q`: protocols are drained in reverse registration order, each FIFO
front-to-back. -/
def expectedCallsRev (q : Nat → List NetQueueEntry) :
    List (Nat × Nat) → List (Nat × NetQueueEntry)
  | [] => []
  | r :: rest => expectedCallsRev q rest ++ drainLoop r.2 (q r.1)

/-! ## Timer subsystem (net.c) -/

/-- `struct net_timer`.  `interval` and `last` are instants/durations
as integers (`timersub` can go negative, so the difference is taken in
`Int`). -/
structure NetTimer where
  interval : Int
  last : Int
  handler : Nat
deriving DecidableEq

/-- The loop of `net_timer_handler`.  `gettimeofday` is re-read on
every iteration, modelled by the observation sequence `clock`; the
`j`-th visited timer sees time `clock j`.  Fires the handler exactly
when `interval < now - last` (`timercmp(&interval, &diff, <)`), then
sets `last := now`.  Returns the timer list after the walk and the
invocation log as (absolute index, handler) pairs. -/
def net_timer_handlerLoop (clock : Nat → Int) :
    List NetTimer → Nat → List NetTimer × List (Nat × Nat)
  | [], _ => ([], [])
  | t :: rest, j =>
    let now := clock j
    let done := net_timer_handlerLoop clock rest (j + 1)
    if t.interval < now - t.last then
      ({ t with last := now } :: done.1, (j, t.handler) :: done.2)
    else (t :: done.1, done.2)

/-- `net_timer_handler`: one tick walks the whole timer list from
index 0. -/
def net_timer_handler (clock : Nat → Int) (timers : List NetTimer) :
    List NetTimer × List (Nat × Nat) :=
  net_timer_handlerLoop clock timers 0

/-! ## Scheduler primitive (platform/linux/sched.c)

All accesses to a `struct sched_ctx` happen with the associated mutex
held, so its evolution is a sequential transition system; a call to
`sched_sleep` is split at the condition wait into its entry half and
its resumption half. -/

/-- `struct sched_ctx`: the interrupted flag and the waiter count. -/
structure SchedCtx where
  interrupted : Bool
  wc : Nat
deriving DecidableEq

/-- The entry half of `sched_sleep`, up to the condition wait: if
`interrupted` is set, return −1 with `errno = EINTR` immediately
(second component `some (-1)`); otherwise increment the waiter count
and park (second component `none`). -/
def sched_sleep_enter (ctx : SchedCtx) : SchedCtx × Option Int :=
  if ctx.interrupted then (ctx, some (-1))
  else ({ ctx with wc := ctx.wc + 1 }, none)

/-- The resumption half of `sched_sleep`, after the condition wait
returned `ret`: decrement the waiter count; if `interrupted` is set,
clear it when this was the last waiter and return −1 with `errno =
EINTR`, else return `ret`. -/
def sched_sleep_resume (ctx : SchedCtx) (ret : Int) : SchedCtx × Int :=
  let ctx1 := { ctx with wc := ctx.wc - 1 }
  if ctx1.interrupted then
    (if ctx1.wc = 0 then { ctx1 with interrupted := false } else ctx1, -1)
  else (ctx1, ret)

/-- `sched_wakeup`: broadcast only; the context state is untouched. -/
def sched_wakeup (ctx : SchedCtx) : SchedCtx := ctx

/-- `sched_interrupt`: set the interrupted flag and broadcast. -/
def sched_interrupt (ctx : SchedCtx) : SchedCtx := { ctx with interrupted := true }

/-! ## Auxiliary definitions used by theorem statements -/

/-- No slot of the cache is STATIC. -/
def noStatic (l : List ArpCache) : Prop := ∀ c ∈ l, c.state ≠ ArpState.STATIC

/-- Default timer for `getD`. -/
def timerDefault : NetTimer := ⟨0, 0, 0⟩

/-- The protocol list that a registration sequence builds: because
`net_protocol_register` prepends, the list holds the registrations in
reverse order. -/
def buildRev : List (Nat × Nat) → List NetProtocol
  | [] => []
  | r :: rest => buildRev rest ++ [⟨r.1, [], r.2⟩]

/-- The invocation log of a full drain, protocol by protocol in list
order. -/
def drainCalls : List NetProtocol → List (Nat × NetQueueEntry)
  | [] => []
  | p :: rest => drainLoop p.handler p.queue ++ drainCalls rest

/-- A concrete Ethernet device with one IPv4 interface. -/
def devE : NetDevice :=
  ⟨NET_DEVICE_TYPE_ETHERNET, 10, 11, [⟨NET_IFACE_FAMILY_IP, 100⟩]⟩

/-- The IPv4 interface of `devE`. -/
def ifaceIP : NetIface := ⟨NET_IFACE_FAMILY_IP, 100⟩

/-- A concrete Ethernet device with no interfaces. -/
def devNoIface : NetDevice := ⟨NET_DEVICE_TYPE_ETHERNET, 10, 11, []⟩

/-- A 32-slot cache whose slot 0 is STATIC for protocol address 1. -/
def cexC1Cache : List ArpCache :=
  (List.replicate ARP_CACHE_SIZE arpFreeEntry).set 0 ⟨ArpState.STATIC, 1, 7, 0⟩

/-- A well-formed ARP reply whose sender protocol address is 1
(header fields hold their wire-order values). -/
def cexC1Msg : ArpMsg :=
  ⟨hton16 ARP_HRD_ETHER, hton16 ARP_PRO_IP, ETHER_ADDR_LEN, IP_ADDR_LEN,
   hton16 ARP_OP_REPLY, 5, 1, 10, 9⟩

/-- A well-formed ARP request from sender (77, 55) for target
protocol address 100 (the unicast address of `ifaceIP`). -/
def cexReq : ArpMsg :=
  ⟨hton16 ARP_HRD_ETHER, hton16 ARP_PRO_IP, ETHER_ADDR_LEN, IP_ADDR_LEN,
   hton16 ARP_OP_REQUEST, 77, 55, 0, 100⟩

/-- A well-formed ARP reply from sender (77, 55) targeted at protocol
address 100 (the unicast address of `ifaceIP`). -/
def cexRep : ArpMsg :=
  ⟨hton16 ARP_HRD_ETHER, hton16 ARP_PRO_IP, ETHER_ADDR_LEN, IP_ADDR_LEN,
   hton16 ARP_OP_REPLY, 77, 55, 0, 100⟩

/-- A full 32-slot cache whose only oldest entry (timestamp 0) is the
STATIC slot 0; slots 1..31 are RESOLVED with timestamps 1..31. -/
def cexC3Cache : List ArpCache :=
  ⟨ArpState.STATIC, 100, 8, 0⟩ ::
    (List.range 31).map (fun k => ⟨ArpState.RESOLVED, 101 + k, 9, 1 + k⟩)

/-- A queue entry used by the softirq-order counterexample. -/
def qe1 : NetQueueEntry := ⟨0, 1, [1]⟩

/-- Another queue entry used by the softirq-order counterexample. -/
def qe2 : NetQueueEntry := ⟨0, 1, [2]⟩

/-- Queue assignment giving protocol 1 the entry `qe1` and protocol 2
the entry `qe2`. -/
def cexQ : Nat → List NetQueueEntry :=
  fun ty => if ty = 1 then [qe1] else if ty = 2 then [qe2] else []

/-! ## Generic list lemmas -/

theorem getD_set_self (l : List α) (i : Nat) (a d : α) (h : i < l.length) :
    (l.set i a).getD i d = a := by
  induction l generalizing i with
  | nil => simp at h
  | cons x xs ih =>
    cases i with
    | zero => simp [List.set]
    | succ n =>
      simp only [List.set, List.getD_cons_succ]
      exact ih n (by simpa using h)

theorem getD_set_ne (l : List α) (i j : Nat) (a d : α) (h : i ≠ j) :
    (l.set i a).getD j d = l.getD j d := by
  induction l generalizing i j with
  | nil => simp [List.set]
  | cons x xs ih =>
    cases i with
    | zero =>
      cases j with
      | zero => exact absurd rfl h
      | succ m => simp [List.set]
    | succ n =>
      cases j with
      | zero => simp [List.set]
      | succ m =>
        simp only [List.set, List.getD_cons_succ]
        exact ih n m (by omega)

theorem getD_mem (l : List α) (k : Nat) (d : α) (h : k < l.length) :
    l.getD k d ∈ l := by
  induction l generalizing k with
  | nil => simp at h
  | cons x xs ih =>
    cases k with
    | zero => simp
    | succ n =>
      simp only [List.getD_cons_succ]
      exact List.mem_cons_of_mem _ (ih n (by simpa using h))

/-! ## Cache-lookup lemmas -/

theorem selectIdx_some (pa : Nat) (l : List ArpCache) (i : Nat)
    (h : arp_cache_selectIdx pa l = some i) :
    i < l.length ∧ (l.getD i arpFreeEntry).state ≠ ArpState.FREE ∧
      (l.getD i arpFreeEntry).pa = pa := by
  induction l generalizing i with
  | nil => simp [arp_cache_selectIdx] at h
  | cons c rest ih =>
    by_cases hc : c.state ≠ ArpState.FREE ∧ c.pa = pa
    · simp only [arp_cache_selectIdx, if_pos hc] at h
      cases h
      exact ⟨by simp, by simpa using hc.1, by simpa using hc.2⟩
    · simp only [arp_cache_selectIdx, if_neg hc] at h
      rcases Option.map_eq_some'.mp h with ⟨i', hi', rfl⟩
      rcases ih i' hi' with ⟨h1, h2, h3⟩
      exact ⟨by simpa using Nat.succ_lt_succ h1, by simpa using h2, by simpa using h3⟩

/-! ## Slot-allocation lemmas -/

theorem allocLoop_ne_fail (l : List ArpCache) :
    ∀ (i oi ot : Nat), arp_cache_allocLoop l i (some (oi, ot)) ≠ AllocChoice.fail := by
  induction l with
  | nil => intro i oi ot; simp [arp_cache_allocLoop]
  | cons c rest ih =>
    intro i oi ot
    by_cases hc : c.state = ArpState.FREE
    · simp [arp_cache_allocLoop, hc]
    · simp only [arp_cache_allocLoop, if_neg hc]
      by_cases hot : ot > c.timestamp
      · simpa [hot] using ih (i + 1) i c.timestamp
      · simpa [hot] using ih (i + 1) oi ot

theorem allocLoop_freeSlot (l : List ArpCache) :
    ∀ (i j : Nat) (acc : Option (Nat × Nat)),
      arp_cache_allocLoop l i acc = AllocChoice.freeSlot j →
      ∃ k, k < l.length ∧ j = i + k ∧ (l.getD k arpFreeEntry).state = ArpState.FREE := by
  induction l with
  | nil =>
    intro i j acc h
    cases acc with
    | none => simp [arp_cache_allocLoop] at h
    | some p =>
      obtain ⟨oi, ot⟩ := p
      simp [arp_cache_allocLoop] at h
  | cons c rest ih =>
    intro i j acc h
    by_cases hc : c.state = ArpState.FREE
    · simp only [arp_cache_allocLoop, if_pos hc] at h
      cases h
      exact ⟨0, by simp, by simp, by simpa using hc⟩
    · simp only [arp_cache_allocLoop, if_neg hc] at h
      rcases ih (i + 1) j _ h with ⟨k, hk, hj, hs⟩
      exact ⟨k + 1, by simpa using Nat.succ_lt_succ hk, by omega, by simpa using hs⟩

theorem allocLoop_evict_bound (l : List ArpCache) :
    ∀ (i oi ot j : Nat),
      arp_cache_allocLoop l i (some (oi, ot)) = AllocChoice.evict j →
      j = oi ∨ ∃ k, k < l.length ∧ j = i + k := by
  induction l with
  | nil =>
    intro i oi ot j h
    simp only [arp_cache_allocLoop, AllocChoice.evict.injEq] at h
    exact Or.inl h.symm
  | cons c rest ih =>
    intro i oi ot j h
    by_cases hc : c.state = ArpState.FREE
    · simp [arp_cache_allocLoop, hc] at h
    · simp only [arp_cache_allocLoop, if_neg hc] at h
      by_cases hot : ot > c.timestamp
      · rw [if_pos hot] at h
        rcases ih (i + 1) i c.timestamp j h with hj | ⟨k, hk, hj⟩
        · exact Or.inr ⟨0, by simp, by omega⟩
        · exact Or.inr ⟨k + 1, by simpa using Nat.succ_lt_succ hk, by omega⟩
      · rw [if_neg hot] at h
        rcases ih (i + 1) oi ot j h with hj | ⟨k, hk, hj⟩
        · exact Or.inl hj
        · exact Or.inr ⟨k + 1, by simpa using Nat.succ_lt_succ hk, by omega⟩

theorem allocLoop_evict_min (l : List ArpCache) :
    ∀ (i oi ot : Nat), (∀ c ∈ l, c.state ≠ ArpState.FREE) →
      ∃ j tj, arp_cache_allocLoop l i (some (oi, ot)) = AllocChoice.evict j ∧
        tj ≤ ot ∧ (∀ c ∈ l, tj ≤ c.timestamp) ∧
        ((j = oi ∧ tj = ot) ∨
          ∃ k, k < l.length ∧ j = i + k ∧ tj = (l.getD k arpFreeEntry).timestamp) := by
  induction l with
  | nil =>
    intro i oi ot _
    exact ⟨oi, ot, by simp [arp_cache_allocLoop], Nat.le_refl ot, by simp,
      Or.inl ⟨rfl, rfl⟩⟩
  | cons c rest ih =>
    intro i oi ot hfree
    have hc : ¬ c.state = ArpState.FREE := hfree c (by simp)
    have hrest : ∀ x ∈ rest, x.state ≠ ArpState.FREE :=
      fun x hx => hfree x (List.mem_cons_of_mem _ hx)
    by_cases hot : ot > c.timestamp
    · rcases ih (i + 1) i c.timestamp hrest with ⟨j, tj, heq, hle, hall, hpos⟩
      refine ⟨j, tj, ?_, ?_, ?_, ?_⟩
      · simp only [arp_cache_allocLoop, if_neg hc, if_pos hot]
        exact heq
      · exact Nat.le_of_lt (Nat.lt_of_le_of_lt hle hot)
      · intro x hx
        rcases List.mem_cons.mp hx with rfl | hx'
        · exact hle
        · exact hall x hx'
      · rcases hpos with ⟨hj, htj⟩ | ⟨k, hk, hj, htj⟩
        · exact Or.inr ⟨0, by simp, by omega, by simpa using htj⟩
        · refine Or.inr ⟨k + 1, by simpa using Nat.succ_lt_succ hk, by omega, ?_⟩
          simpa using htj
    · rcases ih (i + 1) oi ot hrest with ⟨j, tj, heq, hle, hall, hpos⟩
      refine ⟨j, tj, ?_, hle, ?_, ?_⟩
      · simp only [arp_cache_allocLoop, if_neg hc, if_neg hot]
        exact heq
      · intro x hx
        rcases List.mem_cons.mp hx with rfl | hx'
        · exact Nat.le_trans hle (Nat.le_of_not_lt hot)
        · exact hall x hx'
      · rcases hpos with hp | ⟨k, hk, hj, htj⟩
        · exact Or.inl hp
        · refine Or.inr ⟨k + 1, by simpa using Nat.succ_lt_succ hk, by omega, ?_⟩
          simpa using htj

theorem arp_cache_alloc_spec (caches : List ArpCache) (h : caches ≠ []) :
    ∃ j cs, arp_cache_alloc caches = some (j, cs) ∧ j < caches.length ∧
      cs.length = caches.length ∧ (cs = caches ∨ cs = caches.set j arpFreeEntry) := by
  cases caches with
  | nil => exact absurd rfl h
  | cons c rest =>
    by_cases hc : c.state = ArpState.FREE
    · exact ⟨0, c :: rest, by simp [arp_cache_alloc, arp_cache_allocLoop, hc],
        by simp, rfl, Or.inl rfl⟩
    · have hstep : arp_cache_allocLoop (c :: rest) 0 none
          = arp_cache_allocLoop rest 1 (some (0, c.timestamp)) := by
        simp [arp_cache_allocLoop, hc]
      cases hres : arp_cache_allocLoop rest 1 (some (0, c.timestamp)) with
      | fail => exact absurd hres (allocLoop_ne_fail rest 1 0 c.timestamp)
      | freeSlot j =>
        rcases allocLoop_freeSlot rest 1 j _ hres with ⟨k, hk, hj, _⟩
        refine ⟨j, c :: rest, ?_, ?_, rfl, Or.inl rfl⟩
        · simp only [arp_cache_alloc, hstep, hres]
        · simp only [List.length_cons]; omega
      | evict j =>
        have hbound : j < (c :: rest).length := by
          rcases allocLoop_evict_bound rest 1 0 c.timestamp j hres with hj | ⟨k, hk, hj⟩
          · simp [hj]
          · simp only [List.length_cons]; omega
        refine ⟨j, (c :: rest).set j arpFreeEntry, ?_, hbound, by simp, Or.inr rfl⟩
        simp only [arp_cache_alloc, hstep, hres]

theorem arp_cache_alloc_min (caches : List ArpCache) (h1 : caches ≠ [])
    (h2 : ∀ c ∈ caches, c.state ≠ ArpState.FREE) :
    ∃ j, arp_cache_alloc caches = some (j, caches.set j arpFreeEntry) ∧
      j < caches.length ∧
      ∀ k, k < caches.length →
        (caches.getD j arpFreeEntry).timestamp ≤ (caches.getD k arpFreeEntry).timestamp := by
  cases caches with
  | nil => exact absurd rfl h1
  | cons c rest =>
    have hc : ¬ c.state = ArpState.FREE := h2 c (by simp)
    have hrest : ∀ x ∈ rest, x.state ≠ ArpState.FREE :=
      fun x hx => h2 x (List.mem_cons_of_mem _ hx)
    rcases allocLoop_evict_min rest 1 0 c.timestamp hrest with ⟨j, tj, heq, hle, hall, hpos⟩
    have halloc : arp_cache_alloc (c :: rest) = some (j, (c :: rest).set j arpFreeEntry) := by
      simp only [arp_cache_alloc, arp_cache_allocLoop, if_neg hc, heq]
    have hjts : ((c :: rest).getD j arpFreeEntry).timestamp = tj := by
      rcases hpos with ⟨hj0, htj⟩ | ⟨k, hk, hj, htj⟩
      · subst hj0; simpa using htj.symm
      · have hj' : j = k + 1 := by omega
        subst hj'; simpa using htj.symm
    have hbound : j < (c :: rest).length := by
      rcases hpos with ⟨hj0, _⟩ | ⟨k, hk, hj, _⟩
      · simp [hj0]
      · simp only [List.length_cons]; omega
    refine ⟨j, halloc, hbound, ?_⟩
    intro k hk
    cases k with
    | zero => rw [hjts]; simpa using hle
    | succ m =>
      rw [hjts]
      have hm : m < rest.length := by simpa using hk
      simpa using hall (rest.getD m arpFreeEntry) (getD_mem rest m arpFreeEntry hm)

/-! ## Absence of STATIC entries along the protocol path -/

theorem noStatic_set (l : List ArpCache) (i : Nat) (a : ArpCache)
    (hl : noStatic l) (ha : a.state ≠ ArpState.STATIC) : noStatic (l.set i a) := by
  intro c hc
  rcases List.mem_or_eq_of_mem_set hc with h | rfl
  · exact hl c h
  · exact ha

theorem noStatic_update (pa ha now : Nat) (caches cs : List ArpCache)
    (h : noStatic caches) (hu : arp_cache_update pa ha now caches = some cs) :
    noStatic cs := by
  unfold arp_cache_update at hu
  cases hsel : arp_cache_selectIdx pa caches with
  | none => rw [hsel] at hu; cases hu
  | some i =>
    rw [hsel] at hu
    cases hu
    exact noStatic_set _ _ _ h (by simp)

theorem noStatic_alloc (caches cs : List ArpCache) (i : Nat)
    (h : noStatic caches) (ha : arp_cache_alloc caches = some (i, cs)) : noStatic cs := by
  unfold arp_cache_alloc at ha
  cases hres : arp_cache_allocLoop caches 0 none with
  | freeSlot j => rw [hres] at ha; cases ha; exact h
  | evict j =>
    rw [hres] at ha; cases ha
    exact noStatic_set _ _ _ h (by simp [arpFreeEntry])
  | fail => rw [hres] at ha; cases ha

theorem noStatic_insert (pa ha now : Nat) (caches cs : List ArpCache)
    (h : noStatic caches) (hi : arp_cache_insert pa ha now caches = some cs) :
    noStatic cs := by
  unfold arp_cache_insert at hi
  cases hal : arp_cache_alloc caches with
  | none => rw [hal] at hi; cases hi
  | some p =>
    obtain ⟨i, caches1⟩ := p
    rw [hal] at hi
    cases hi
    exact noStatic_set _ _ _ (noStatic_alloc caches caches1 i h hal) (by simp)

theorem noStatic_update_getD (pa ha now : Nat) (caches : List ArpCache)
    (h : noStatic caches) :
    noStatic ((arp_cache_update pa ha now caches).getD caches) := by
  cases hu : arp_cache_update pa ha now caches with
  | none => simpa using h
  | some cs => simpa using noStatic_update pa ha now caches cs h hu

theorem noStatic_insert_getD (pa ha now : Nat) (caches : List ArpCache)
    (h : noStatic caches) :
    noStatic ((arp_cache_insert pa ha now caches).getD caches) := by
  cases hi : arp_cache_insert pa ha now caches with
  | none => simpa using h
  | some cs => simpa using noStatic_insert pa ha now caches cs h hi

theorem noStatic_input (len : Nat) (msg : ArpMsg) (dev : NetDevice) (now : Nat)
    (w : ArpWorld) (h : noStatic w.caches) :
    noStatic (arp_input len msg dev now w).caches := by
  have hc1 := noStatic_update_getD msg.spa msg.sha now w.caches h
  have hc2 := noStatic_insert_getD msg.spa msg.sha now
    ((arp_cache_update msg.spa msg.sha now w.caches).getD w.caches) hc1
  simp only [arp_input]
  split
  · exact h
  split
  · exact h
  split
  · exact h
  split
  · exact hc1
  split
  · split
    · split
      · simpa using hc2
      · simpa using hc1
    · split
      · simpa using hc2
      · simpa using hc1
  · exact hc1

theorem noStatic_resolve (dev : NetDevice) (iface : NetIface) (pa now : Nat)
    (caches : List ArpCache) (h : noStatic caches) :
    noStatic (arp_resolve dev iface pa now caches).caches := by
  simp only [arp_resolve]
  split
  · exact h
  split
  · exact h
  split
  · rename_i hsel
    cases hal : arp_cache_alloc caches with
    | none => simp only [hal]; exact h
    | some p =>
      obtain ⟨i, caches1⟩ := p
      simp only [hal]
      exact noStatic_set _ _ _ (noStatic_alloc caches caches1 i h hal) (by simp)
  · split
    · exact h
    · exact h

theorem noStatic_step (w : ArpWorld) (op : ArpOp) (h : noStatic w.caches) :
    noStatic (arpStep w op).caches := by
  cases op with
  | input len msg dev now => exact noStatic_input len msg dev now w h
  | resolve dev iface pa now => exact noStatic_resolve dev iface pa now w.caches h

theorem noStatic_run (ops : List ArpOp) :
    ∀ (w : ArpWorld), noStatic w.caches → noStatic (arpRun w ops).caches := by
  induction ops with
  | nil => intro w h; exact h
  | cons op rest ih =>
    intro w h
    exact ih (arpStep w op) (noStatic_step w op h)

/-! ## Normal form of arp_input on validated input -/

theorem arp_input_valid (len : Nat) (msg : ArpMsg) (dev : NetDevice) (now : Nat)
    (w : ArpWorld)
    (h1 : ¬ len < ARP_ETHER_IP_SIZE)
    (h2 : ntoh16 msg.hrd = ARP_HRD_ETHER) (h3 : msg.hln = ETHER_ADDR_LEN)
    (h4 : ntoh16 msg.pro = ARP_PRO_IP) (h5 : msg.pln = IP_ADDR_LEN) :
    arp_input len msg dev now w =
      (let upd := arp_cache_update msg.spa msg.sha now w.caches
       let caches1 := upd.getD w.caches
       match net_device_get_iface dev NET_IFACE_FAMILY_IP with
       | none => { w with caches := caches1 }
       | some iface =>
         if iface.unicast = msg.tpa then
           let caches2 :=
             if ¬ upd.isSome then (arp_cache_insert msg.spa msg.sha now caches1).getD caches1
             else caches1
           if ntoh16 msg.op = ARP_OP_REQUEST then
             { caches := caches2
               sent := w.sent ++ [arp_reply dev iface.unicast msg.sha msg.spa msg.sha] }
           else { w with caches := caches2 }
         else { w with caches := caches1 }) := by
  unfold arp_input
  rw [if_neg h1, if_neg (by simp [h2, h3]), if_neg (by simp [h4, h5])]

/-! ## Normal form of arp_resolve on a supported device/interface -/

theorem arp_resolve_ok (dev : NetDevice) (iface : NetIface) (pa now : Nat)
    (caches : List ArpCache)
    (hdev : dev.type = NET_DEVICE_TYPE_ETHERNET)
    (hif : iface.family = NET_IFACE_FAMILY_IP) :
    arp_resolve dev iface pa now caches =
      (match arp_cache_selectIdx pa caches with
       | none =>
         match arp_cache_alloc caches with
         | none => ⟨ArpResolveResult.ERROR, none, caches, []⟩
         | some (i, caches1) =>
           let caches2 := caches1.set i
             { caches1.getD i arpFreeEntry with
                 state := ArpState.INCOMPLETE, pa := pa, timestamp := now }
           ⟨ArpResolveResult.INCOMPLETE, none, caches2, [arp_request dev iface.unicast pa]⟩
       | some i =>
         let c := caches.getD i arpFreeEntry
         if c.state = ArpState.INCOMPLETE then
           ⟨ArpResolveResult.INCOMPLETE, none, caches, [arp_request dev iface.unicast pa]⟩
         else
           ⟨ArpResolveResult.FOUND, some c.ha, caches, []⟩) := by
  unfold arp_resolve
  rw [if_neg (not_not_intro hdev), if_neg (not_not_intro hif)]

/-! ## Claim C1 -/

/-- Claim C1, amended: `arp_cache_update` and `arp_cache_alloc` give
STATIC entries no special protection (`claim_C1_counterexample` shows
an update rewriting one); the protection holds only vacuously, because
no `arp_input`/`arp_resolve` path ever writes state STATIC, so from
the initial all-FREE cache no sequence of those calls ever produces a
STATIC entry. -/
theorem claim_C1_thm (ops : List ArpOp) :
    ∀ c ∈ (arpRun arpInit ops).caches, c.state ≠ ArpState.STATIC := by
  have hinit : noStatic arpInit.caches := by
    intro c hc
    have hc' : c = arpFreeEntry := List.eq_of_mem_replicate (by simpa [arpInit] using hc)
    subst hc'
    simp [arpFreeEntry]
  exact noStatic_run ops arpInit hinit

/-- Witness for C1: the invariant applied to the empty call sequence
and the first slot of the initial cache. -/
theorem claim_C1_witness :
    arpFreeEntry ∈ (arpRun arpInit []).caches ∧ arpFreeEntry.state ≠ ArpState.STATIC :=
  ⟨by decide, claim_C1_thm [] arpFreeEntry (by decide)⟩

/-- Counterexample to C1 as stated: on a cache whose slot 0 is a
STATIC entry for protocol address 1, feeding a well-formed ARP reply
with sender protocol address 1 rewrites that STATIC entry to RESOLVED
(`arp_cache_update` selects any non-FREE entry, STATIC included). -/
theorem claim_C1_counterexample :
    (cexC1Cache.getD 0 arpFreeEntry).state = ArpState.STATIC ∧
    ((arp_input 28 cexC1Msg devNoIface 99 ⟨cexC1Cache, []⟩).caches.getD 0
        arpFreeEntry).state = ArpState.RESOLVED := by
  decide

/-! ## Claim C3 -/

/-- Claim C3, amended: when `arp_resolve` misses and no slot is FREE,
the evicted slot is one with the minimum timestamp among ALL slots,
regardless of state — STATIC slots are not skipped; in particular when
every slot is non-FREE and non-STATIC this is the minimum timestamp of
all slots. -/
theorem claim_C3_thm (dev : NetDevice) (iface : NetIface) (pa now : Nat)
    (caches : List ArpCache)
    (hdev : dev.type = NET_DEVICE_TYPE_ETHERNET) (hif : iface.family = NET_IFACE_FAMILY_IP)
    (hmiss : arp_cache_selectIdx pa caches = none) (hne : caches ≠ [])
    (hnofree : ∀ c ∈ caches, c.state ≠ ArpState.FREE) :
    ∃ j, j < caches.length ∧
      (∀ k, k < caches.length →
        (caches.getD j arpFreeEntry).timestamp ≤ (caches.getD k arpFreeEntry).timestamp) ∧
      arp_resolve dev iface pa now caches =
        ⟨ArpResolveResult.INCOMPLETE, none,
          caches.set j ⟨ArpState.INCOMPLETE, pa, 0, now⟩,
          [arp_request dev iface.unicast pa]⟩ := by
  rcases arp_cache_alloc_min caches hne hnofree with ⟨j, hal, hj, hmin⟩
  refine ⟨j, hj, hmin, ?_⟩
  rw [arp_resolve_ok dev iface pa now caches hdev hif]
  simp only [hmiss, hal]
  rw [getD_set_self _ _ _ _ hj, List.set_set]
  rfl

/-- Witness for C3 (amended): the eviction theorem applied to the
concrete full cache `cexC3Cache`. -/
theorem claim_C3_witness :
    ∃ j, j < cexC3Cache.length ∧
      (∀ k, k < cexC3Cache.length →
        (cexC3Cache.getD j arpFreeEntry).timestamp ≤
          (cexC3Cache.getD k arpFreeEntry).timestamp) ∧
      arp_resolve devE ifaceIP 999 50 cexC3Cache =
        ⟨ArpResolveResult.INCOMPLETE, none,
          cexC3Cache.set j ⟨ArpState.INCOMPLETE, 999, 0, 50⟩,
          [arp_request devE ifaceIP.unicast 999]⟩ :=
  claim_C3_thm devE ifaceIP 999 50 cexC3Cache rfl rfl (by decide) (by decide) (by decide)

/-- Counterexample to C3 as stated: in `cexC3Cache` the oldest slot is
the STATIC slot 0, and `arp_cache_alloc` evicts exactly that slot even
though non-STATIC slots exist, so the evicted slot is not the oldest
among non-STATIC slots. -/
theorem claim_C3_counterexample :
    (cexC3Cache.getD 0 arpFreeEntry).state = ArpState.STATIC ∧
    (cexC3Cache.getD 1 arpFreeEntry).state ≠ ArpState.STATIC ∧
    arp_cache_alloc cexC3Cache = some (0, cexC3Cache.set 0 arpFreeEntry) ∧
    (arp_resolve devE ifaceIP 999 50 cexC3Cache).caches.getD 0 arpFreeEntry
      = ⟨ArpState.INCOMPLETE, 999, 0, 50⟩ := by
  decide

/-! ## Claim C2 -/

/-- Claim C2: `arp_resolve` returns ERROR and leaves the cache
unchanged on a non-Ethernet device or non-IPv4 interface; on a cache
miss it creates an INCOMPLETE entry for `pa` stamped with the current
time, emits one broadcast ARP request and returns INCOMPLETE; on an
INCOMPLETE hit it re-emits the request and returns INCOMPLETE; on a
RESOLVED or STATIC hit it hands back that entry's hardware address and
returns FOUND with the cache unchanged. -/
theorem claim_C2_thm (dev : NetDevice) (iface : NetIface) (pa now : Nat)
    (caches : List ArpCache) (hne : caches ≠ []) :
    ((dev.type ≠ NET_DEVICE_TYPE_ETHERNET ∨ iface.family ≠ NET_IFACE_FAMILY_IP) →
      arp_resolve dev iface pa now caches = ⟨ArpResolveResult.ERROR, none, caches, []⟩)
    ∧ (dev.type = NET_DEVICE_TYPE_ETHERNET → iface.family = NET_IFACE_FAMILY_IP →
      ((arp_cache_selectIdx pa caches = none →
        (arp_resolve dev iface pa now caches).res = ArpResolveResult.INCOMPLETE ∧
        (arp_resolve dev iface pa now caches).sent = [arp_request dev iface.unicast pa] ∧
        ∃ i, i < (arp_resolve dev iface pa now caches).caches.length ∧
          ((arp_resolve dev iface pa now caches).caches.getD i arpFreeEntry).state
            = ArpState.INCOMPLETE ∧
          ((arp_resolve dev iface pa now caches).caches.getD i arpFreeEntry).pa = pa ∧
          ((arp_resolve dev iface pa now caches).caches.getD i arpFreeEntry).timestamp
            = now)
      ∧ (∀ i, arp_cache_selectIdx pa caches = some i →
          (caches.getD i arpFreeEntry).state = ArpState.INCOMPLETE →
          arp_resolve dev iface pa now caches =
            ⟨ArpResolveResult.INCOMPLETE, none, caches,
              [arp_request dev iface.unicast pa]⟩)
      ∧ (∀ i, arp_cache_selectIdx pa caches = some i →
          ((caches.getD i arpFreeEntry).state = ArpState.RESOLVED ∨
            (caches.getD i arpFreeEntry).state = ArpState.STATIC) →
          arp_resolve dev iface pa now caches =
            ⟨ArpResolveResult.FOUND, some (caches.getD i arpFreeEntry).ha, caches,
              []⟩))) := by
  constructor
  · intro h
    unfold arp_resolve
    by_cases h1 : dev.type = NET_DEVICE_TYPE_ETHERNET
    · rw [if_neg (not_not_intro h1)]
      have h2 : iface.family ≠ NET_IFACE_FAMILY_IP := by
        rcases h with hx | hx
        · exact absurd h1 hx
        · exact hx
      rw [if_pos h2]
    · rw [if_pos h1]
  · intro hdev hif
    refine ⟨?_, ?_, ?_⟩
    · intro hmiss
      rcases arp_cache_alloc_spec caches hne with ⟨j, cs, hal, hjlt, hlencs, _⟩
      have heq : arp_resolve dev iface pa now caches =
          ⟨ArpResolveResult.INCOMPLETE, none,
            cs.set j { cs.getD j arpFreeEntry with
              state := ArpState.INCOMPLETE, pa := pa, timestamp := now },
            [arp_request dev iface.unicast pa]⟩ := by
        rw [arp_resolve_ok dev iface pa now caches hdev hif]
        simp only [hmiss, hal]
      rw [heq]
      have hjcs : j < cs.length := by omega
      refine ⟨rfl, rfl, j, ?_, ?_, ?_, ?_⟩
      · simpa using hjcs
      · rw [getD_set_self _ _ _ _ hjcs]
      · rw [getD_set_self _ _ _ _ hjcs]
      · rw [getD_set_self _ _ _ _ hjcs]
    · intro i hsel hst
      rw [arp_resolve_ok dev iface pa now caches hdev hif]
      simp only [hsel]
      rw [if_pos hst]
    · intro i hsel hst
      have hne' : ¬ (caches.getD i arpFreeEntry).state = ArpState.INCOMPLETE := by
        rcases hst with h | h <;> rw [h] <;> decide
      rw [arp_resolve_ok dev iface pa now caches hdev hif]
      simp only [hsel]
      rw [if_neg hne']

/-- Witness for C2: a resolve miss on the empty 32-slot cache returns
INCOMPLETE and emits the broadcast request. -/
theorem claim_C2_witness :
    (arp_resolve devE ifaceIP 42 7 (List.replicate 32 arpFreeEntry)).res
      = ArpResolveResult.INCOMPLETE ∧
    (arp_resolve devE ifaceIP 42 7 (List.replicate 32 arpFreeEntry)).sent
      = [arp_request devE ifaceIP.unicast 42] := by
  have h :=
    (claim_C2_thm devE ifaceIP 42 7 (List.replicate 32 arpFreeEntry) (by decide)).2
      rfl rfl
  exact ⟨(h.1 (by decide)).1, (h.1 (by decide)).2.1⟩

/-! ## Claim C4 -/

/-- Claim C4: after a well-formed ARP reply with sender SPA/SHA and
target TPA, either (a) an entry for SPA is RESOLVED with hardware
address SHA — this happens when an entry for SPA already existed
(merge) or when TPA is the receiving interface's unicast address
(insert) — or (b) no entry existed for SPA and TPA differs from the
unicast address, and the whole world is unchanged: replies for
non-local targets are never inserted. -/
theorem claim_C4_thm (len : Nat) (msg : ArpMsg) (dev : NetDevice) (now : Nat)
    (w : ArpWorld) (ifc : NetIface)
    (h1 : ¬ len < ARP_ETHER_IP_SIZE)
    (h2 : ntoh16 msg.hrd = ARP_HRD_ETHER) (h3 : msg.hln = ETHER_ADDR_LEN)
    (h4 : ntoh16 msg.pro = ARP_PRO_IP) (h5 : msg.pln = IP_ADDR_LEN)
    (hop : ntoh16 msg.op = ARP_OP_REPLY)
    (hif : net_device_get_iface dev NET_IFACE_FAMILY_IP = some ifc)
    (hne : w.caches ≠ []) :
    ((arp_cache_selectIdx msg.spa w.caches ≠ none ∨ ifc.unicast = msg.tpa) →
      ∃ i, i < (arp_input len msg dev now w).caches.length ∧
        ((arp_input len msg dev now w).caches.getD i arpFreeEntry).state
          = ArpState.RESOLVED ∧
        ((arp_input len msg dev now w).caches.getD i arpFreeEntry).pa = msg.spa ∧
        ((arp_input len msg dev now w).caches.getD i arpFreeEntry).ha = msg.sha)
    ∧ ((arp_cache_selectIdx msg.spa w.caches = none ∧ ifc.unicast ≠ msg.tpa) →
      arp_input len msg dev now w = w) := by
  have hnf := arp_input_valid len msg dev now w h1 h2 h3 h4 h5
  have hopneq : ¬ ntoh16 msg.op = ARP_OP_REQUEST := by
    rw [hop]
    decide
  constructor
  · intro hmerge
    cases hsel : arp_cache_selectIdx msg.spa w.caches with
    | some i =>
      rcases selectIdx_some msg.spa w.caches i hsel with ⟨hi, hnfree, hpa⟩
      have hupd : arp_cache_update msg.spa msg.sha now w.caches
          = some (w.caches.set i
              { w.caches.getD i arpFreeEntry with
                  state := ArpState.RESOLVED, ha := msg.sha, timestamp := now }) := by
        unfold arp_cache_update
        rw [hsel]
      have hcaches : (arp_input len msg dev now w).caches
          = w.caches.set i
              { w.caches.getD i arpFreeEntry with
                  state := ArpState.RESOLVED, ha := msg.sha, timestamp := now } := by
        rw [hnf]
        simp [hif, hupd, hopneq]
      refine ⟨i, ?_, ?_, ?_, ?_⟩
      · rw [hcaches]
        simpa using hi
      · rw [hcaches, getD_set_self _ _ _ _ hi]
      · rw [hcaches, getD_set_self _ _ _ _ hi]
        exact hpa
      · rw [hcaches, getD_set_self _ _ _ _ hi]
    | none =>
      have htpa : ifc.unicast = msg.tpa := by
        rcases hmerge with hx | hx
        · exact absurd hsel hx
        · exact hx
      have hupd : arp_cache_update msg.spa msg.sha now w.caches = none := by
        unfold arp_cache_update
        rw [hsel]
      rcases arp_cache_alloc_spec w.caches hne with ⟨j, cs, hal, hj, hlencs, _⟩
      have hins : arp_cache_insert msg.spa msg.sha now w.caches
          = some (cs.set j ⟨ArpState.RESOLVED, msg.spa, msg.sha, now⟩) := by
        unfold arp_cache_insert
        rw [hal]
      have hcaches : (arp_input len msg dev now w).caches
          = cs.set j ⟨ArpState.RESOLVED, msg.spa, msg.sha, now⟩ := by
        rw [hnf]
        simp [hif, hupd, hins, htpa, hopneq]
      have hjcs : j < cs.length := by omega
      refine ⟨j, ?_, ?_, ?_, ?_⟩
      · rw [hcaches]
        simpa using hjcs
      · rw [hcaches, getD_set_self _ _ _ _ hjcs]
      · rw [hcaches, getD_set_self _ _ _ _ hjcs]
      · rw [hcaches, getD_set_self _ _ _ _ hjcs]
  · rintro ⟨hsel, htpa⟩
    have hupd : arp_cache_update msg.spa msg.sha now w.caches = none := by
      unfold arp_cache_update
      rw [hsel]
    rw [hnf]
    simp only [hif, hupd, Option.getD_none, if_neg htpa]

/-- Witness for C4: on the empty cache, a reply addressed to our
unicast address inserts a RESOLVED entry for the sender. -/
theorem claim_C4_witness :
    ∃ i, i < (arp_input 28 cexRep devE 3 arpInit).caches.length ∧
      ((arp_input 28 cexRep devE 3 arpInit).caches.getD i arpFreeEntry).state
        = ArpState.RESOLVED ∧
      ((arp_input 28 cexRep devE 3 arpInit).caches.getD i arpFreeEntry).pa
        = cexRep.spa ∧
      ((arp_input 28 cexRep devE 3 arpInit).caches.getD i arpFreeEntry).ha
        = cexRep.sha :=
  (claim_C4_thm 28 cexRep devE 3 arpInit ifaceIP (by decide) (by decide) (by decide)
    (by decide) (by decide) (by decide) (by decide) (by decide)).1 (Or.inr (by decide))

/-! ## Claim C5 -/

/-- Claim C5: a well-formed ARP request whose target protocol address
is the receiving interface's unicast address makes `arp_input` emit
exactly one ARP reply whose source addresses are our MAC and IPv4
address, whose target addresses are the requester's SHA and SPA, and
whose Ethernet destination is SHA; a request for a non-local target
emits no frame. -/
theorem claim_C5_thm (len : Nat) (msg : ArpMsg) (dev : NetDevice) (now : Nat)
    (w : ArpWorld) (ifc : NetIface)
    (h1 : ¬ len < ARP_ETHER_IP_SIZE)
    (h2 : ntoh16 msg.hrd = ARP_HRD_ETHER) (h3 : msg.hln = ETHER_ADDR_LEN)
    (h4 : ntoh16 msg.pro = ARP_PRO_IP) (h5 : msg.pln = IP_ADDR_LEN)
    (hop : ntoh16 msg.op = ARP_OP_REQUEST)
    (hif : net_device_get_iface dev NET_IFACE_FAMILY_IP = some ifc) :
    (ifc.unicast = msg.tpa →
      (arp_input len msg dev now w).sent
        = w.sent ++ [arp_reply dev ifc.unicast msg.sha msg.spa msg.sha]
      ∧ (arp_reply dev ifc.unicast msg.sha msg.spa msg.sha).msg.sha = dev.addr
      ∧ (arp_reply dev ifc.unicast msg.sha msg.spa msg.sha).msg.spa = ifc.unicast
      ∧ (arp_reply dev ifc.unicast msg.sha msg.spa msg.sha).msg.tha = msg.sha
      ∧ (arp_reply dev ifc.unicast msg.sha msg.spa msg.sha).msg.tpa = msg.spa
      ∧ (arp_reply dev ifc.unicast msg.sha msg.spa msg.sha).dst = msg.sha
      ∧ ntoh16 (arp_reply dev ifc.unicast msg.sha msg.spa msg.sha).msg.op
          = ARP_OP_REPLY)
    ∧ (ifc.unicast ≠ msg.tpa → (arp_input len msg dev now w).sent = w.sent) := by
  have hnf := arp_input_valid len msg dev now w h1 h2 h3 h4 h5
  constructor
  · intro htpa
    refine ⟨?_, rfl, rfl, rfl, rfl, rfl,
      by norm_num [arp_reply, ntoh16, hton16, ARP_OP_REPLY]⟩
    rw [hnf]
    simp only [hif]
    rw [if_pos htpa, if_pos hop]
  · intro htpa
    rw [hnf]
    simp only [hif]
    rw [if_neg htpa]

/-- Witness for C5: the request `cexReq` addressed to our unicast
address makes `arp_input` on the initial world emit exactly the reply
frame destined to the requester's hardware address. -/
theorem claim_C5_witness :
    (arp_input 28 cexReq devE 3 arpInit).sent
      = [arp_reply devE ifaceIP.unicast 77 55 77] := by
  have h := (claim_C5_thm 28 cexReq devE 3 arpInit ifaceIP (by decide) (by decide)
    (by decide) (by decide) (by decide) (by decide) (by decide)).1 (by decide)
  simpa [arpInit, cexReq] using h.1

/-! ## Claim C8 -/

/-- Claim C8: an input that is too short or fails the hardware-type,
hardware-length, protocol-type or protocol-length check is dropped:
`arp_input` leaves the world (cache and emitted frames) unchanged. -/
theorem claim_C8_thm (len : Nat) (msg : ArpMsg) (dev : NetDevice) (now : Nat)
    (w : ArpWorld)
    (h : len < ARP_ETHER_IP_SIZE ∨ ntoh16 msg.hrd ≠ ARP_HRD_ETHER ∨
      msg.hln ≠ ETHER_ADDR_LEN ∨ ntoh16 msg.pro ≠ ARP_PRO_IP ∨ msg.pln ≠ IP_ADDR_LEN) :
    arp_input len msg dev now w = w := by
  unfold arp_input
  by_cases h1 : len < ARP_ETHER_IP_SIZE
  · rw [if_pos h1]
  · rw [if_neg h1]
    by_cases h2 : ntoh16 msg.hrd = ARP_HRD_ETHER ∧ msg.hln = ETHER_ADDR_LEN
    · rw [if_neg (not_not_intro h2)]
      by_cases h3 : ntoh16 msg.pro = ARP_PRO_IP ∧ msg.pln = IP_ADDR_LEN
      · rcases h with hx | hx | hx | hx | hx
        · exact absurd hx h1
        · exact absurd h2.1 hx
        · exact absurd h2.2 hx
        · exact absurd h3.1 hx
        · exact absurd h3.2 hx
      · rw [if_pos h3]
    · rw [if_pos h2]

/-- Witness for C8: a short (5-byte) input leaves the initial world
unchanged. -/
theorem claim_C8_witness : arp_input 5 cexC1Msg devE 0 arpInit = arpInit :=
  claim_C8_thm 5 cexC1Msg devE 0 arpInit (Or.inl (by decide))

/-! ## Registry and softirq-drain lemmas -/

theorem registerAll_ok (rs : List (Nat × Nat)) :
    ∀ (ps : List NetProtocol), (rs.map Prod.fst).Nodup →
      (∀ r ∈ rs, ∀ p ∈ ps, r.1 ≠ p.type) →
      registerAll rs ps = some (buildRev rs ++ ps) := by
  induction rs with
  | nil =>
    intro ps _ _
    simp [registerAll, buildRev]
  | cons r rest ih =>
    intro ps hnd hdisj
    have hcond : ¬ (ps.any (fun p => p.type = r.1) = true) := by
      intro hx
      rcases List.any_eq_true.mp hx with ⟨p, hp, hpt⟩
      exact absurd (of_decide_eq_true hpt).symm
        (hdisj r (List.mem_cons_self r rest) p hp)
    have hreg : net_protocol_register r.1 r.2 ps = some (⟨r.1, [], r.2⟩ :: ps) := by
      unfold net_protocol_register
      rw [if_neg hcond]
    have hnd' : (rest.map Prod.fst).Nodup := (List.nodup_cons.mp (by simpa using hnd)).2
    have hhead : r.1 ∉ rest.map Prod.fst := (List.nodup_cons.mp (by simpa using hnd)).1
    have hdisj' : ∀ r' ∈ rest, ∀ p ∈ (⟨r.1, [], r.2⟩ : NetProtocol) :: ps,
        r'.1 ≠ p.type := by
      intro r' hr' p hp
      rcases List.mem_cons.mp hp with rfl | hp'
      · intro hx
        have hx' : r'.1 = r.1 := hx
        exact hhead (hx' ▸ List.mem_map_of_mem Prod.fst hr')
      · exact hdisj r' (List.mem_cons_of_mem _ hr') p hp'
    have hstep : registerAll (r :: rest) ps
        = registerAll rest (⟨r.1, [], r.2⟩ :: ps) := by
      show (match net_protocol_register r.1 r.2 ps with
            | none => none
            | some ps1 => registerAll rest ps1)
          = registerAll rest (⟨r.1, [], r.2⟩ :: ps)
      rw [hreg]
    rw [hstep, ih _ hnd' hdisj']
    simp [buildRev, List.append_assoc]

theorem softirq_drain_calls (l : List NetProtocol) :
    (net_softirq_handler l).2 = drainCalls l := by
  induction l with
  | nil => rfl
  | cons p rest ih => simp [net_softirq_handler, drainCalls, ih]

theorem drainCalls_append (l1 l2 : List NetProtocol) :
    drainCalls (l1 ++ l2) = drainCalls l1 ++ drainCalls l2 := by
  induction l1 with
  | nil => simp [drainCalls]
  | cons p rest ih => simp [drainCalls, ih]

theorem drainCalls_buildRev (q : Nat → List NetQueueEntry) (rs : List (Nat × Nat)) :
    drainCalls ((buildRev rs).map (fun p => ⟨p.type, q p.type, p.handler⟩))
      = expectedCallsRev q rs := by
  induction rs with
  | nil => rfl
  | cons r rest ih =>
    simp [buildRev, drainCalls_append, drainCalls, expectedCallsRev, ih]

/-! ## Claim C6 -/

/-- Claim C6, amended: `net_protocol_register` prepends, so the
registry holds the protocols in reverse registration order
(`buildRev`), and `net_softirq_handler` walks that list from its head:
queued entries of the protocol registered LAST are handled first, and
within each protocol the FIFO is popped until empty before advancing
(`expectedCallsRev` lists the drained protocols in reverse
registration order, each FIFO front-to-back). -/
theorem claim_C6_thm (rs : List (Nat × Nat)) (q : Nat → List NetQueueEntry)
    (h : (rs.map Prod.fst).Nodup) :
    registerAll rs [] = some (buildRev rs) ∧
    (net_softirq_handler ((buildRev rs).map
        (fun p => ⟨p.type, q p.type, p.handler⟩))).2
      = expectedCallsRev q rs := by
  constructor
  · simpa using registerAll_ok rs [] h (by simp)
  · rw [softirq_drain_calls]
    exact drainCalls_buildRev q rs

/-- Witness for C6 (amended): two registrations, one queued entry
each. -/
theorem claim_C6_witness :
    registerAll [(1, 10), (2, 20)] [] = some (buildRev [(1, 10), (2, 20)]) ∧
    (net_softirq_handler ((buildRev [(1, 10), (2, 20)]).map
        (fun p => ⟨p.type, cexQ p.type, p.handler⟩))).2
      = expectedCallsRev cexQ [(1, 10), (2, 20)] :=
  claim_C6_thm [(1, 10), (2, 20)] cexQ (by decide)

/-- Counterexample to C6 as stated: register protocol 1 (handler 10)
first, then protocol 2 (handler 20); with one queued entry each, the
drain handles protocol 2's entry BEFORE protocol 1's — the protocol
registered first is handled last, not first. -/
theorem claim_C6_counterexample :
    registerAll [(1, 10), (2, 20)] [] = some [⟨2, [], 20⟩, ⟨1, [], 10⟩] ∧
    (net_softirq_handler (([⟨2, [], 20⟩, ⟨1, [], 10⟩] : List NetProtocol).map
        (fun p => ⟨p.type, cexQ p.type, p.handler⟩))).2
      = [(20, qe2), (10, qe1)] := by
  decide

/-! ## Timer-walk lemmas -/

theorem timerLoop_cons (clock : Nat → Int) (t : NetTimer) (rest : List NetTimer)
    (i : Nat) :
    net_timer_handlerLoop clock (t :: rest) i =
      (if t.interval < clock i - t.last
       then ({ t with last := clock i } :: (net_timer_handlerLoop clock rest (i + 1)).1,
             (i, t.handler) :: (net_timer_handlerLoop clock rest (i + 1)).2)
       else (t :: (net_timer_handlerLoop clock rest (i + 1)).1,
             (net_timer_handlerLoop clock rest (i + 1)).2)) := rfl

theorem timerLoop_length (clock : Nat → Int) :
    ∀ (ts : List NetTimer) (i : Nat),
      (net_timer_handlerLoop clock ts i).1.length = ts.length := by
  intro ts
  induction ts with
  | nil => intro i; rfl
  | cons t rest ih =>
    intro i
    rw [timerLoop_cons]
    by_cases hdue : t.interval < clock i - t.last
    · simp [hdue, ih (i + 1)]
    · simp [hdue, ih (i + 1)]

theorem timerLoop_mem (clock : Nat → Int) :
    ∀ (ts : List NetTimer) (i : Nat) (p : Nat × Nat),
      p ∈ (net_timer_handlerLoop clock ts i).2 → ∃ k, k < ts.length ∧ p.1 = i + k := by
  intro ts
  induction ts with
  | nil =>
    intro i p hp
    simp [net_timer_handlerLoop] at hp
  | cons t rest ih =>
    intro i p hp
    rw [timerLoop_cons] at hp
    by_cases hdue : t.interval < clock i - t.last
    · rw [if_pos hdue] at hp
      rcases List.mem_cons.mp hp with rfl | hp'
      · exact ⟨0, by simp, by simp⟩
      · rcases ih (i + 1) p hp' with ⟨k, hk, hpk⟩
        exact ⟨k + 1, by simpa using Nat.succ_lt_succ hk, by omega⟩
    · rw [if_neg hdue] at hp
      rcases ih (i + 1) p hp with ⟨k, hk, hpk⟩
      exact ⟨k + 1, by simpa using Nat.succ_lt_succ hk, by omega⟩

theorem timerLoop_count_zero (clock : Nat → Int) (ts : List NetTimer) (i : Nat)
    (h : Nat) : (net_timer_handlerLoop clock ts (i + 1)).2.count (i, h) = 0 := by
  rw [List.count_eq_zero]
  intro hmem
  rcases timerLoop_mem clock ts (i + 1) _ hmem with ⟨k, _, hpk⟩
  simp at hpk
  omega

theorem timerLoop_shift (clock : Nat → Int) (t : NetTimer) (rest : List NetTimer)
    (i : Nat) (key : Nat × Nat) (hk : key.1 ≠ i) :
    (net_timer_handlerLoop clock (t :: rest) i).2.count key
      = (net_timer_handlerLoop clock rest (i + 1)).2.count key ∧
    (key ∈ (net_timer_handlerLoop clock (t :: rest) i).2 ↔
      key ∈ (net_timer_handlerLoop clock rest (i + 1)).2) := by
  rw [timerLoop_cons]
  by_cases hh : t.interval < clock i - t.last
  · rw [if_pos hh]
    have hne : ¬ (((i, t.handler) : Nat × Nat) == key) = true := by
      simp only [beq_iff_eq]
      intro hx
      exact hk (congrArg Prod.fst hx).symm
    constructor
    · rw [List.count_cons, if_neg hne, Nat.add_zero]
    · rw [List.mem_cons]
      constructor
      · rintro (hx | hx)
        · exact absurd (congrArg Prod.fst hx) hk
        · exact hx
      · exact Or.inr
  · rw [if_neg hh]
    exact ⟨rfl, Iff.rfl⟩

theorem timerLoop_getD (clock : Nat → Int) :
    ∀ (ts : List NetTimer) (i j : Nat), j < ts.length →
      (((ts.getD j timerDefault).interval
          < clock (i + j) - (ts.getD j timerDefault).last →
        (net_timer_handlerLoop clock ts i).1.getD j timerDefault
          = { ts.getD j timerDefault with last := clock (i + j) } ∧
        (net_timer_handlerLoop clock ts i).2.count
          (i + j, (ts.getD j timerDefault).handler) = 1)
      ∧ (¬ (ts.getD j timerDefault).interval
          < clock (i + j) - (ts.getD j timerDefault).last →
        (net_timer_handlerLoop clock ts i).1.getD j timerDefault
          = ts.getD j timerDefault ∧
        (i + j, (ts.getD j timerDefault).handler)
          ∉ (net_timer_handlerLoop clock ts i).2)) := by
  intro ts
  induction ts with
  | nil =>
    intro i j hj
    simp at hj
  | cons t rest ih =>
    intro i j hj
    cases j with
    | zero =>
      constructor
      · intro hdue
        have hdue' : t.interval < clock i - t.last := by simpa using hdue
        have hcnt0 := timerLoop_count_zero clock rest i t.handler
        constructor
        · rw [timerLoop_cons, if_pos hdue']
          simp
        · rw [timerLoop_cons, if_pos hdue']
          simp only [List.getD_cons_zero, Nat.add_zero]
          rw [List.count_cons, hcnt0]
          simp
      · intro hdue
        have hdue' : ¬ t.interval < clock i - t.last := by simpa using hdue
        constructor
        · rw [timerLoop_cons, if_neg hdue']
          simp
        · rw [timerLoop_cons, if_neg hdue']
          simp only [List.getD_cons_zero, Nat.add_zero]
          intro hmem
          rcases timerLoop_mem clock rest (i + 1) _ hmem with ⟨k, _, hpk⟩
          simp at hpk
          omega
    | succ m =>
      have hm : m < rest.length := by simpa using hj
      have harith : i + (m + 1) = (i + 1) + m := by omega
      have hIH := ih (i + 1) m hm
      have hkey1 : ((i + (m + 1), (rest.getD m timerDefault).handler) :
          Nat × Nat).1 ≠ i := by
        show i + (m + 1) ≠ i
        omega
      have hshift := timerLoop_shift clock t rest i
        (i + (m + 1), (rest.getD m timerDefault).handler) hkey1
      have hL1 : (net_timer_handlerLoop clock (t :: rest) i).1.getD (m + 1) timerDefault
          = (net_timer_handlerLoop clock rest (i + 1)).1.getD m timerDefault := by
        rw [timerLoop_cons]
        by_cases hh : t.interval < clock i - t.last
        · rw [if_pos hh]
          simp
        · rw [if_neg hh]
          simp
      constructor
      · intro hdue
        have hdue' : (rest.getD m timerDefault).interval
            < clock ((i + 1) + m) - (rest.getD m timerDefault).last := by
          rw [← harith]
          simpa using hdue
        rcases hIH.1 hdue' with ⟨hgd, hcnt⟩
        constructor
        · simp only [List.getD_cons_succ]
          rw [hL1, hgd, ← harith]
        · simp only [List.getD_cons_succ]
          rw [hshift.1, harith]
          exact hcnt
      · intro hdue
        have hdue' : ¬ (rest.getD m timerDefault).interval
            < clock ((i + 1) + m) - (rest.getD m timerDefault).last := by
          rw [← harith]
          simpa using hdue
        rcases hIH.2 hdue' with ⟨hgd, hnm⟩
        constructor
        · simp only [List.getD_cons_succ]
          rw [hL1]
          exact hgd
        · simp only [List.getD_cons_succ]
          intro hmem
          exact hnm (harith ▸ hshift.2.mp hmem)

/-! ## Claim C7 -/

/-- Claim C7, amended: on a tick, `net_timer_handler` invokes a
timer's callback exactly when the elapsed time is STRICTLY greater
than its interval (`timercmp(&interval, &diff, <)`), i.e. now − last >
interval, and then sets last := now; a timer with now − last ≤
interval (equality included) is not invoked and keeps its `last`; a
single tick invokes each due timer exactly once. -/
theorem claim_C7_thm (clock : Nat → Int) (timers : List NetTimer) (j : Nat)
    (hj : j < timers.length) :
    (net_timer_handler clock timers).1.length = timers.length
    ∧ ((timers.getD j timerDefault).interval
          < clock j - (timers.getD j timerDefault).last →
        (net_timer_handler clock timers).1.getD j timerDefault
          = { timers.getD j timerDefault with last := clock j }
        ∧ (net_timer_handler clock timers).2.count
            (j, (timers.getD j timerDefault).handler) = 1)
    ∧ (¬ (timers.getD j timerDefault).interval
          < clock j - (timers.getD j timerDefault).last →
        (net_timer_handler clock timers).1.getD j timerDefault
          = timers.getD j timerDefault
        ∧ (j, (timers.getD j timerDefault).handler)
            ∉ (net_timer_handler clock timers).2) := by
  have h := timerLoop_getD clock timers 0 j hj
  rw [Nat.zero_add] at h
  exact ⟨timerLoop_length clock timers 0, h.1, h.2⟩

/-- Witness for C7 (amended): a timer with interval 5, last 0, seen at
time 6, fires exactly once and its `last` becomes 6. -/
theorem claim_C7_witness :
    (net_timer_handler (fun _ => 6) [⟨5, 0, 77⟩]).1.getD 0 timerDefault
      = { (⟨5, 0, 77⟩ : NetTimer) with last := 6 }
    ∧ (net_timer_handler (fun _ => 6) [⟨5, 0, 77⟩]).2.count (0, 77) = 1 := by
  have h := (claim_C7_thm (fun _ => 6) [⟨5, 0, 77⟩] 0 (by decide)).2.1 (by decide)
  exact ⟨h.1, h.2⟩

/-- Counterexample to C7 as stated: a timer whose elapsed time equals
its interval (now − last = interval = 5) is due under the claim's
condition now − last ≥ interval, yet the handler does not invoke it
and leaves `last` unchanged (the code tests interval < diff,
strictly). -/
theorem claim_C7_counterexample :
    (5 : Int) - 0 ≥ 5 ∧
    net_timer_handler (fun _ => 5) [⟨5, 0, 77⟩] = ([⟨5, 0, 77⟩], []) := by
  decide

/-! ## Claim C9 -/

/-- Claim C9: with the interrupted flag set, `sched_sleep` returns −1
with EINTR both for a thread entering the sleep and for a thread waking
from the condition wait; the flag is cleared exactly by the resumption
that brings the waiter count back to zero; afterwards resumptions
return their wait status normally; no other scheduler operation clears
the flag. -/
theorem claim_C9_thm (ctx : SchedCtx) (ret : Int) :
    (sched_interrupt ctx).interrupted = true
    ∧ (ctx.interrupted = true → sched_sleep_enter ctx = (ctx, some (-1)))
    ∧ (ctx.interrupted = true → 1 ≤ ctx.wc →
        (sched_sleep_resume ctx ret).2 = -1
        ∧ ((sched_sleep_resume ctx ret).1.interrupted = false ↔ ctx.wc = 1))
    ∧ (ctx.interrupted = false →
        sched_sleep_resume ctx ret = ({ ctx with wc := ctx.wc - 1 }, ret))
    ∧ (sched_sleep_enter ctx).1.interrupted = ctx.interrupted
    ∧ (sched_wakeup ctx).interrupted = ctx.interrupted := by
  refine ⟨rfl, ?_, ?_, ?_, ?_, rfl⟩
  · intro h
    simp [sched_sleep_enter, h]
  · intro h hwc
    constructor
    · simp [sched_sleep_resume, h]
    · by_cases hz : ctx.wc - 1 = 0
      · simp [sched_sleep_resume, h, hz]
        omega
      · simp [sched_sleep_resume, h, hz]
        omega
  · intro h
    simp [sched_sleep_resume, h]
  · by_cases h : ctx.interrupted
    · simp [sched_sleep_enter, h]
    · simp [sched_sleep_enter, h]

/-- Witness for C9: with the flag set and one waiter, the resumption
returns −1 and clears the flag. -/
theorem claim_C9_witness :
    (sched_sleep_resume ⟨true, 1⟩ 0).2 = -1 ∧
    (sched_sleep_resume ⟨true, 1⟩ 0).1.interrupted = false := by
  have h := claim_C9_thm ⟨true, 1⟩ 0
  exact ⟨(h.2.2.1 rfl (by decide)).1, ((h.2.2.1 rfl (by decide)).2).mpr rfl⟩

/-! ## Claim C10 -/

/-- Claim C10: for an Ethernet-type device and an IPv4-family
interface, `arp_resolve` on the 32-slot cache never returns ERROR:
`arp_cache_alloc` always finds a slot on a nonempty array, so the
allocation-failure branch is unreachable. -/
theorem claim_C10_thm (dev : NetDevice) (iface : NetIface) (pa now : Nat)
    (caches : List ArpCache) (hdev : dev.type = NET_DEVICE_TYPE_ETHERNET)
    (hif : iface.family = NET_IFACE_FAMILY_IP) (hlen : caches.length = ARP_CACHE_SIZE) :
    (arp_resolve dev iface pa now caches).res ≠ ArpResolveResult.ERROR := by
  have hne : caches ≠ [] := by
    intro hx
    rw [hx] at hlen
    simp [ARP_CACHE_SIZE] at hlen
  rw [arp_resolve_ok dev iface pa now caches hdev hif]
  cases hsel : arp_cache_selectIdx pa caches with
  | none =>
    rcases arp_cache_alloc_spec caches hne with ⟨j, cs, hal, _, _, _⟩
    simp [hal]
  | some i =>
    by_cases hst : (caches[i]?.getD arpFreeEntry).state = ArpState.INCOMPLETE
    · simp [hst]
    · simp [hst]

/-- Witness for C10: a resolve on the empty 32-slot cache returns a
non-ERROR result. -/
theorem claim_C10_witness :
    (arp_resolve devE ifaceIP 42 7 (List.replicate 32 arpFreeEntry)).res
      ≠ ArpResolveResult.ERROR :=
  claim_C10_thm devE ifaceIP 42 7 (List.replicate 32 arpFreeEntry) rfl rfl (by decide)

end Microps
